import Mathlib

/-!
Verification of the retrieval engine of the SOP document-QA repository.

The development shallowly embeds the JavaScript retrieval core:

* `src/js/advancedVectorDB.js` — class `AdvancedVectorDatabase`
  (index building, candidate filtering, scoring, fusion ranking);
* `src/js/githubIntegration.js` — class `QueryIntelligence`
  (query analysis: state / order-type / topic extraction, keywords,
  confidence);
* the not-ready guard of `search` in `src/js/vectorDatabase.js`
  (a second class of the same name).

JavaScript strings are modelled as Lean `String` / `List Char`; the ASCII
fragments of `toLowerCase` / `toUpperCase` are modelled exactly (the
pattern dictionaries of the source are all ASCII, so case conversion of
non-ASCII characters is modelled as the identity).  JavaScript numbers are
modelled as real numbers (`ℝ`) where the source computes with
`Math.log` / `Math.sqrt`, and as rationals (`ℚ`) for the exact decimal
arithmetic of the confidence score.  `Map` / `Set` objects are modelled as
insertion-ordered association lists / duplicate-free lists, matching the
iteration-order semantics of the source.
-/

/-! ## Character classes (JavaScript regex semantics)

`\w` in a JavaScript regex is exactly `[A-Za-z0-9_]`; `\s` is the set of
whitespace characters listed in the ECMAScript standard. -/

/-- `\w` of a JavaScript regex: ASCII letters, digits and underscore. -/
def isWordChar (c : Char) : Bool :=
  ('a' ≤ c && c ≤ 'z') || ('A' ≤ c && c ≤ 'Z') || ('0' ≤ c && c ≤ '9') || c == '_'

/-- `\s` of a JavaScript regex (ECMAScript WhiteSpace ∪ LineTerminator). -/
def isWsChar (c : Char) : Bool :=
  c == ' ' || c == '\t' || c == '\n' || c == '\r' || c == '\x0b' || c == '\x0c' ||
  c == ' ' || c == ' ' || (' ' ≤ c && c ≤ ' ') ||
  c == ' ' || c == ' ' || c == ' ' || c == ' ' ||
  c == '　' || c == '﻿'

/-- ASCII fragment of JavaScript `String.prototype.toLowerCase`. -/
def jsToLowerChar (c : Char) : Char :=
  if 'A' ≤ c ∧ c ≤ 'Z' then Char.ofNat (c.toNat + 32) else c

/-- ASCII fragment of JavaScript `String.prototype.toUpperCase`. -/
def jsToUpperChar (c : Char) : Char :=
  if 'a' ≤ c ∧ c ≤ 'z' then Char.ofNat (c.toNat - 32) else c

/-- `query.toLowerCase()` (ASCII fragment). -/
def jsLower (s : String) : String := String.mk (s.toList.map jsToLowerChar)

/-- `query.toUpperCase()` (ASCII fragment). -/
def jsUpper (s : String) : String := String.mk (s.toList.map jsToUpperChar)

/-! ## Substring and pattern matching

The source tests queries against fixed regex patterns.  Each pattern shape
that actually occurs (`literal`, `\bw\b`, `a\s+b` with optional leading /
trailing `\b`, `non[\s-]?rise`, `prop.*65`) is embedded as a dedicated
decidable matcher over `List Char`. -/

/-- Whether `w` is a prefix of `s` (character-wise). -/
def startsWithL : List Char → List Char → Bool
  | [], _ => true
  | _ :: _, [] => false
  | a :: as, b :: bs => a == b && startsWithL as bs

/-- Whether `w` occurs as a contiguous substring of `s`
(JavaScript `String.prototype.includes`). -/
def hasSubstr (w : List Char) : List Char → Bool
  | [] => startsWithL w []
  | c :: t => startsWithL w (c :: t) || hasSubstr w t

/-- `hay.includes(needle)` on Lean strings. -/
def strIncludes (hay needle : String) : Bool := hasSubstr needle.toList hay.toList

/-- The literal `w` occurs in `s` starting at index `i`. -/
def litAt (w s : List Char) (i : Nat) : Bool := startsWithL w (s.drop i)

/-- Character of `s` at index `i`, if any. -/
def charAt (s : List Char) (i : Nat) : Option Char := (s.drop i).head?

/-- Index `i` of `s` holds a word character. -/
def isWordAt (s : List Char) (i : Nat) : Bool :=
  match charAt s i with
  | some c => isWordChar c
  | none => false

/-- A `\b` word boundary holds just before index `i`, assuming the pattern
continues with a word character at `i` (true at the start of the string or
after a non-word character). -/
def bdryBefore (s : List Char) (i : Nat) : Bool :=
  i == 0 || !(isWordAt s (i - 1))

/-- A `\b` word boundary holds at index `i` for a pattern whose previous
character was a word character (true at the end of the string or before a
non-word character). -/
def noWordAt (s : List Char) (i : Nat) : Bool := !(isWordAt s i)

/-- All candidate match positions in `s` (including the end position). -/
def idxs (s : List Char) : List Nat := List.range (s.length + 1)

/-- Characters of `s` at indices `[start, start+k)` all exist and are
whitespace (`\s`). -/
def allWsRange (s : List Char) (start k : Nat) : Bool :=
  (List.range k).all fun j =>
    match charAt s (start + j) with
    | some c => isWsChar c
    | none => false

/-- Characters of `s` at indices `[start, start+k)` contain no ECMAScript
line terminator (the complement class of regex `.`). -/
def noLineTermRange (s : List Char) (start k : Nat) : Bool :=
  (List.range k).all fun j =>
    match charAt s (start + j) with
    | some c => !(c == '\n' || c == '\r' || c == ' ' || c == ' ')
    | none => true

/-- Regex `w` as a plain substring test (patterns such as `/price/i`). -/
def subMatch (w : String) (s : String) : Bool := hasSubstr w.toList s.toList

/-- Regex `\bw\b` (patterns such as `/\brise\b/i`). -/
def wordBMatch (w : String) (s : String) : Bool :=
  let wl := w.toList
  let sl := s.toList
  (idxs sl).any fun i =>
    bdryBefore sl i && litAt wl sl i && noWordAt sl (i + wl.length)

/-- Regex `a\s+b`, with optional leading `\b` before `a` and optional
trailing `\b` after `b` (patterns such as `/\brise\s+order/i`,
`/menu\s+price/i`, `/\bfor\s+rise\b/i`). -/
def seqWsMatch (a b : String) (reqStartB reqEndB : Bool) (s : String) : Bool :=
  let al := a.toList
  let bl := b.toList
  let sl := s.toList
  (idxs sl).any fun i =>
    (!reqStartB || bdryBefore sl i) && litAt al sl i &&
    ((List.range (sl.length + 1)).any fun k =>
      decide (1 ≤ k) && allWsRange sl (i + al.length) k &&
      litAt bl sl (i + al.length + k) &&
      (!reqEndB || noWordAt sl (i + al.length + k + bl.length)))

/-- Regex `\bnon[\s-]?rise\b` of the REGULAR order-type patterns. -/
def nonRiseMatch (s : String) : Bool :=
  let sl := s.toList
  (idxs sl).any fun i =>
    bdryBefore sl i && litAt "non".toList sl i &&
    ((litAt "rise".toList sl (i + 3) && noWordAt sl (i + 7)) ||
     ((match charAt sl (i + 3) with
       | some c => isWsChar c || c == '-'
       | none => false) && litAt "rise".toList sl (i + 4) && noWordAt sl (i + 8)))

/-- Regex `a.*b` (the `/prop.*65/i` compliance pattern); `.` does not match
line terminators. -/
def gapMatch (a b : String) (s : String) : Bool :=
  let al := a.toList
  let bl := b.toList
  let sl := s.toList
  (idxs sl).any fun i =>
    litAt al sl i &&
    ((idxs sl).any fun j =>
      decide (i + al.length ≤ j) && litAt bl sl j &&
      noLineTermRange sl (i + al.length) (j - (i + al.length)))

/-! ## Tokenization (`AdvancedVectorDatabase.extractTerms`,
`QueryIntelligence.extractKeywords`)

Both tokenizers lower-case, replace every character matching `[^\w\s]` by a
space, split on `\s+` and keep tokens of length `> 2` outside a stopword
set.  After the replacement the string consists of word characters and
whitespace only, so the split yields exactly the maximal runs of word
characters (the possible leading empty token produced by JavaScript
`split(/\s+/)` has length 0 and is removed by the length filter). -/

/-- Maximal runs of word characters of `s` (`acc` holds the current run,
reversed). -/
def wordRunsAux : List Char → List Char → List (List Char)
  | [], acc => if acc.isEmpty then [] else [acc.reverse]
  | c :: cs, acc =>
    if isWordChar c then wordRunsAux cs (c :: acc)
    else if acc.isEmpty then wordRunsAux cs []
    else acc.reverse :: wordRunsAux cs []

/-- Maximal runs of word characters of `s`, in order. -/
def wordRuns (s : List Char) : List (List Char) := wordRunsAux s []

/-- Stopword set of `AdvancedVectorDatabase.extractTerms`
(advancedVectorDB.js lines 419-423). -/
def stopWordsDB : List String :=
  ["the", "a", "an", "and", "or", "but", "in", "on", "at", "to", "for",
   "of", "with", "by", "is", "are", "was", "were", "be", "been", "have",
   "has", "had", "do", "does", "did", "will", "would", "could", "should"]

/-- `AdvancedVectorDatabase.extractTerms` (advancedVectorDB.js lines
418-429): lower-case, strip punctuation to spaces, split on whitespace,
keep tokens of length `> 2` outside `stopWordsDB`. -/
def extractTerms (text : String) : List String :=
  ((wordRuns (jsLower text).toList).map String.mk).filter fun w =>
    decide (2 < w.length) && !(decide (w ∈ stopWordsDB))

/-- The additional question-word stopwords of
`QueryIntelligence.extractKeywords`. -/
def questionWords : List String :=
  ["what", "when", "where", "who", "why", "how", "which"]

/-- Stopword set of `QueryIntelligence.extractKeywords`
(githubIntegration.js lines 1296-1301): `stopWordsDB` plus the question
words. -/
def stopWordsQI : List String :=
  stopWordsDB ++ questionWords

/-- `QueryIntelligence.extractKeywords` (githubIntegration.js lines
1295-1308): same pipeline as `extractTerms` but with the larger stopword
set and truncation to the first 10 tokens. -/
def extractKeywords (query : String) : List String :=
  (((wordRuns (jsLower query).toList).map String.mk).filter fun w =>
    decide (2 < w.length) && !(decide (w ∈ stopWordsQI))).take 10

example : extractTerms "What are the order limits for Ohio?" =
    ["what", "order", "limits", "ohio"] := by decide

example : extractKeywords "What are the order limits for Ohio?" =
    ["order", "limits", "ohio"] := by decide

/-! ## Data model

`Chunk` mirrors the processed-chunk records consumed by
`AdvancedVectorDatabase.initialize`: an id, the text, an image list and the
metadata tags.  Images carry a `filename` and a `label`; the JavaScript
treats a missing label as falsy, modelled here by the empty string. -/

/-- An image reference attached to a chunk. -/
structure ImageRef where
  filename : String
  label : String
deriving DecidableEq, Repr

/-- Metadata tags of a chunk (`chunk.metadata`).  A missing array and an
empty array behave identically everywhere in the source (iteration over
nothing; the guard `meta.states && ...` differs only on `undefined`, which
also iterates over nothing), so both are modelled as `[]`. -/
structure ChunkMeta where
  states : List String := []
  sections : List String := []
  topics : List String := []
  has_images : Bool := false
deriving DecidableEq, Repr

/-- A processed semantic chunk. -/
structure Chunk where
  chunk_id : Nat
  text : String := ""
  images : List ImageRef := []
  metadata : ChunkMeta := {}
deriving DecidableEq, Repr

/-! ## Metadata index (`AdvancedVectorDatabase.buildMetadataIndex`)

The four inverted maps are modelled as functions from tag value to the
insertion-ordered list of chunk ids; `Map.get(k) || []` of the source is
the plain application of the function. -/

/-- Append `id` to the bucket of `tag` (`stateIndex.get(state).push(id)`
after `if (!stateIndex.has(state)) stateIndex.set(state, [])`). -/
def tagAdd (idx : String → List Nat) (tag : String) (id : Nat) : String → List Nat :=
  fun t => if t = tag then idx t ++ [id] else idx t

/-- Append `id` to the bucket of the boolean key `b` of the image-presence
map. -/
def tagAddB (idx : Bool → List Nat) (b : Bool) (id : Nat) : Bool → List Nat :=
  fun t => if t = b then idx t ++ [id] else idx t

/-- The `states` inverted index built by `buildMetadataIndex`
(advancedVectorDB.js lines 130-136). -/
def buildStateIdx (chunks : List Chunk) : String → List Nat :=
  chunks.foldl
    (fun idx c => c.metadata.states.foldl (fun i s => tagAdd i s c.chunk_id) idx)
    (fun _ => [])

/-- The `sections` inverted index (lines 138-144). -/
def buildSectionIdx (chunks : List Chunk) : String → List Nat :=
  chunks.foldl
    (fun idx c => c.metadata.sections.foldl (fun i s => tagAdd i s c.chunk_id) idx)
    (fun _ => [])

/-- The `topics` inverted index (lines 146-152). -/
def buildTopicIdx (chunks : List Chunk) : String → List Nat :=
  chunks.foldl
    (fun idx c => c.metadata.topics.foldl (fun i s => tagAdd i s c.chunk_id) idx)
    (fun _ => [])

/-- The image presence recorded for a chunk:
`meta.has_images || (chunk.images && chunk.images.length > 0)` (line 155). -/
def chunkHasImages (c : Chunk) : Bool :=
  c.metadata.has_images || decide (0 < c.images.length)

/-- The `hasImages` inverted index (lines 154-157). -/
def buildHasImagesIdx (chunks : List Chunk) : Bool → List Nat :=
  chunks.foldl
    (fun idx c => tagAddB idx (chunkHasImages c) c.chunk_id)
    (fun _ => [])

/-! ## Database state and `initialize`

The class holds `chunks`, the four indices and the `initialized` flag.
The semantic, keyword and image indices are pure functions of the stored
chunk list (they are built once from it and never mutated), so they are
modelled below as derived functions of `DB.chunks`; the record stores the
chunk list, the metadata index and the flag. -/

/-- Mutable state of an `AdvancedVectorDatabase` instance (the fields set
by the constructor and by `initialize`). -/
structure DB where
  chunks : List Chunk := []
  initialized : Bool := false
  stateIdx : String → List Nat := fun _ => []
  sectionIdx : String → List Nat := fun _ => []
  topicIdx : String → List Nat := fun _ => []
  hasImagesIdx : Bool → List Nat := fun _ => []

/-- The freshly constructed database (constructor, advancedVectorDB.js
lines 7-23): empty indices, `initialized = false`. -/
def DB.new : DB := {}

/-- `AdvancedVectorDatabase.initialize(chunks)` (lines 29-56): stores the
chunk list, builds the four indices and sets `initialized`.  (The returned
statistics object is not modelled; no claim mentions it.) -/
def DB.build (chunks : List Chunk) : DB :=
  { chunks := chunks
    initialized := true
    stateIdx := buildStateIdx chunks
    sectionIdx := buildSectionIdx chunks
    topicIdx := buildTopicIdx chunks
    hasImagesIdx := buildHasImagesIdx chunks }

/-! ## Search filters and candidate narrowing -/

/-- The filters object passed to `search`.  A missing array and an empty
array are both falsy for the guards `filters.x && filters.x.length > 0`,
so both are modelled as `[]`; `hasImages` distinguishes absent (`none`)
from explicit `false`, matching the truthiness test `if (filters.hasImages)`. -/
structure Filters where
  states : List String := []
  sections : List String := []
  topics : List String := []
  hasImages : Option Bool := none
deriving DecidableEq, Repr

/-- Add `x` to an insertion-ordered duplicate-free list (JavaScript
`Set.prototype.add`). -/
def addUnique {α : Type} [DecidableEq α] (l : List α) (x : α) : List α :=
  if x ∈ l then l else l ++ [x]

/-- Union of the index buckets of the given tag values, as an
insertion-ordered set (the `Set` accumulation loops of
`applyCandidateFilters`). -/
def bucketUnion (idx : String → List Nat) (tags : List String) : List Nat :=
  tags.foldl (fun acc s => (idx s).foldl addUnique acc) []

/-- `AdvancedVectorDatabase.applyCandidateFilters(filters)`
(advancedVectorDB.js lines 254-303): narrow candidates dimension by
dimension, intersecting with any previously accumulated candidate set;
`null` candidates (no active dimension) yield `[]`. -/
def applyCandidateFilters (db : DB) (f : Filters) : List Nat :=
  let c0 : Option (List Nat) := none
  let c1 : Option (List Nat) :=
    if f.states ≠ [] then
      let stateCandidates := bucketUnion db.stateIdx f.states
      some (match c0 with
            | some c => c.filter (· ∈ stateCandidates)
            | none => stateCandidates)
    else c0
  let c2 : Option (List Nat) :=
    if f.sections ≠ [] then
      let sectionCandidates := bucketUnion db.sectionIdx f.sections
      some (match c1 with
            | some c => c.filter (· ∈ sectionCandidates)
            | none => sectionCandidates)
    else c1
  let c3 : Option (List Nat) :=
    if f.topics ≠ [] then
      let topicCandidates := bucketUnion db.topicIdx f.topics
      some (match c2 with
            | some c => c.filter (· ∈ topicCandidates)
            | none => topicCandidates)
    else c2
  let c4 : Option (List Nat) :=
    if f.hasImages == some true then
      let imageCandidates := (db.hasImagesIdx true).foldl addUnique []
      some (match c3 with
            | some c => c.filter (· ∈ imageCandidates)
            | none => imageCandidates)
    else c3
  match c4 with
  | some c => c
  | none => []

/-- The candidate ids actually scored by `search` (lines 199-204): the
narrowed set, or — when narrowing yields no candidates — every chunk id. -/
def searchCandidateIds (db : DB) (f : Filters) : List Nat :=
  let candidateIds := applyCandidateFilters db f
  if candidateIds = [] then db.chunks.map (·.chunk_id) else candidateIds

example :
    applyCandidateFilters
      (DB.build [{ chunk_id := 0, metadata := { states := ["OH"] } },
                 { chunk_id := 1, metadata := { states := ["MD"] } }])
      { states := ["OH"] } = [0] := by decide

example :
    searchCandidateIds
      (DB.build [{ chunk_id := 0, metadata := { states := ["OH"] } },
                 { chunk_id := 1, metadata := { states := ["MD"] } }])
      { states := ["ZZ"] } = [0, 1] := by decide

/-! ## Query intelligence (`QueryIntelligence`, githubIntegration.js)

The extraction dictionaries are embedded verbatim, in declaration
(iteration) order.  All extractors receive the already lower-cased query,
as in `enhanceQuery`. -/

/-- `this.stateMappings` (githubIntegration.js lines 1104-1116), in object
insertion order. -/
def stateMappings : List (String × String) :=
  [("ohio", "OH"), ("oh", "OH"),
   ("maryland", "MD"), ("md", "MD"),
   ("new jersey", "NJ"), ("nj", "NJ"), ("jersey", "NJ"),
   ("illinois", "IL"), ("il", "IL"),
   ("new york", "NY"), ("ny", "NY"),
   ("nevada", "NV"), ("nv", "NV"),
   ("massachusetts", "MA"), ("ma", "MA"), ("mass", "MA"),
   ("california", "CA"), ("ca", "CA"),
   ("texas", "TX"), ("tx", "TX"),
   ("florida", "FL"), ("fl", "FL"),
   ("pennsylvania", "PA"), ("pa", "PA")]

/-- The valid state codes of the abbreviation fallback (line 1211). -/
def validStates : List String :=
  ["OH", "MD", "NJ", "IL", "NY", "NV", "MA", "CA", "TX", "FL", "PA"]

/-- `c` is an ASCII uppercase letter (`[A-Z]`). -/
def isUpperAlpha (c : Char) : Bool := 'A' ≤ c && c ≤ 'Z'

/-- `QueryIntelligence.extractState(queryLower)` (lines 1199-1220): first
alias whose text occurs in the query wins; otherwise the first
`\b([A-Z]{2})\b` match of the upper-cased query that is a valid state code.
A `\b([A-Z]{2})\b` match of a string is exactly a maximal word-character
run of length 2 consisting of uppercase letters. -/
def extractState (queryLower : String) : Option String :=
  match stateMappings.find? (fun p => strIncludes queryLower p.1) with
  | some p => some p.2
  | none =>
    let ms :=
      ((wordRuns (jsUpper queryLower).toList).map String.mk).filter fun w =>
        decide (w.length = 2) && w.toList.all isUpperAlpha
    ms.find? (fun m => validStates.contains m)

/-- The RISE patterns of `this.orderTypePatterns` (lines 1120-1123):
`/\brise\b/i, /\binternal\b/i, /\brise\s+order/i, /\binternal\s+order/i,
/\bfor\s+rise\b/i`. -/
def riseMatch (s : String) : Bool :=
  wordBMatch "rise" s || wordBMatch "internal" s ||
  seqWsMatch "rise" "order" true false s ||
  seqWsMatch "internal" "order" true false s ||
  seqWsMatch "for" "rise" true true s

/-- The REGULAR patterns (lines 1124-1127): `/\bregular\b/i,
/\bwholesale\b/i, /\bregular\s+order/i, /\bnormal\s+order/i,
/\bnon[\s-]?rise\b/i`. -/
def regularMatch (s : String) : Bool :=
  wordBMatch "regular" s || wordBMatch "wholesale" s ||
  seqWsMatch "regular" "order" true false s ||
  seqWsMatch "normal" "order" true false s ||
  nonRiseMatch s

/-- `QueryIntelligence.extractOrderType(queryLower)` (lines 1225-1234):
first matching category wins, RISE before REGULAR. -/
def extractOrderType (queryLower : String) : Option String :=
  if riseMatch queryLower then some "RISE"
  else if regularMatch queryLower then some "REGULAR"
  else none

/-- `this.topicPatterns` (lines 1131-1142) as `(topic, any-pattern-matches)`
pairs in declaration order. -/
def topicMatchers : List (String × (String → Bool)) :=
  [("PRICING", fun s =>
      subMatch "price" s || subMatch "pricing" s || subMatch "cost" s ||
      subMatch "discount" s || seqWsMatch "menu" "price" false false s ||
      seqWsMatch "lt" "price" false false s),
   ("BATTERIES", fun s =>
      subMatch "batter" s || seqWsMatch "separate" "invoice" false false s),
   ("BATCH_SUB", fun s =>
      subMatch "batch" s || subMatch "split" s ||
      seqWsMatch "batch" "sub" false false s || subMatch "substitut" s ||
      subMatch "fifo" s),
   ("DELIVERY_DATE", fun s =>
      subMatch "delivery" s || subMatch "date" s || subMatch "schedule" s),
   ("INVOICES", fun s =>
      subMatch "invoice" s || subMatch "draft" s || subMatch "billing" s),
   ("CASE_SIZE", fun s =>
      subMatch "case" s || subMatch "size" s || subMatch "units" s ||
      subMatch "loose" s),
   ("ORDER_LIMIT", fun s =>
      subMatch "limit" s || subMatch "maximum" s ||
      seqWsMatch "max" "unit" false false s || subMatch "min" s ||
      subMatch "minimum" s),
   ("LESS_AVAILABLE", fun s =>
      seqWsMatch "less" "available" false false s || subMatch "partial" s ||
      seqWsMatch "not" "enough" false false s),
   ("SAMPLES", fun s =>
      subMatch "sample" s || subMatch "test" s || subMatch "$0.01" s),
   ("COMPLIANCE", fun s =>
      subMatch "compliance" s || gapMatch "prop" "65" s ||
      subMatch "regulation" s || subMatch "warning" s)]

/-- `QueryIntelligence.extractTopics(queryLower)` (lines 1239-1252): a
topic is included once if any of its patterns matches, in declaration
order. -/
def extractTopics (queryLower : String) : List String :=
  (topicMatchers.filter fun p => p.2 queryLower).map (·.1)

/-- `QueryIntelligence.detectQuestionType(queryLower)` (lines 1257-1266):
first matching category wins, default GENERAL. -/
def detectQuestionType (queryLower : String) : String :=
  if subMatch "how" queryLower || subMatch "what steps" queryLower ||
     subMatch "process" queryLower || subMatch "procedure" queryLower then
    "PROCEDURAL"
  else if subMatch "do we" queryLower || subMatch "should we" queryLower ||
     subMatch "can we" queryLower || subMatch "policy" queryLower ||
     subMatch "rule" queryLower then
    "POLICY"
  else if subMatch "where" queryLower || subMatch "which" queryLower ||
     subMatch "location" queryLower then
    "LOCATION"
  else if subMatch "what is" queryLower || subMatch "what are" queryLower ||
     subMatch "define" queryLower || subMatch "meaning" queryLower then
    "DEFINITION"
  else if subMatch "difference" queryLower || subMatch "compare" queryLower ||
     subMatch "versus" queryLower || subMatch "vs" queryLower then
    "COMPARISON"
  else "GENERAL"

/-- `QueryIntelligence.requiresImage(queryLower)` (lines 1271-1278). -/
def requiresImageQ (queryLower : String) : Bool :=
  ["image", "picture", "visual", "show", "see", "example",
   "form", "template", "screenshot", "diagram"].any fun k =>
    strIncludes queryLower k

/-- `QueryIntelligence.isProcedural(queryLower)` (lines 1283-1290). -/
def isProceduralQ (queryLower : String) : Bool :=
  ["how", "steps", "process", "procedure", "workflow",
   "guide", "tutorial", "instructions"].any fun k =>
    strIncludes queryLower k

/-- `QueryIntelligence.calculateConfidence(state, orderType, topics)`
(githubIntegration.js lines 1313-1321), with the exact decimal constants
as rationals. -/
def calculateConfidence (state orderType : Option String)
    (topics : List String) : ℚ :=
  let c : ℚ := 1/2
  let c := if state.isSome then c + 1/5 else c
  let c := if orderType.isSome then c + 1/5 else c
  let c := if 0 < topics.length then c + (1/10) * (Nat.min topics.length 3 : ℕ) else c
  if c ≤ 1 then c else 1

/-- The structured query analysis returned by `enhanceQuery`. -/
structure QueryAnalysis where
  state : Option String
  orderType : Option String
  topics : List String
  questionType : String
  requiresImage : Bool
  isProcedural : Bool
  keywords : List String
  originalQuery : String
  confidence : ℚ
deriving DecidableEq, Repr

/-- `QueryIntelligence.enhanceQuery(query)` (githubIntegration.js lines
1159-1194). -/
def enhanceQuery (query : String) : QueryAnalysis :=
  let queryLower := jsLower query
  { state := extractState queryLower
    orderType := extractOrderType queryLower
    topics := extractTopics queryLower
    questionType := detectQuestionType queryLower
    requiresImage := requiresImageQ queryLower
    isProcedural := isProceduralQ queryLower
    keywords := extractKeywords query
    originalQuery := query
    confidence := calculateConfidence (extractState queryLower)
      (extractOrderType queryLower) (extractTopics queryLower) }

example : (enhanceQuery "What are the order limits for Ohio?").state = some "OH" := by
  decide

example :
    (enhanceQuery "hello there").state = none ∧
    (enhanceQuery "hello there").orderType = none ∧
    (enhanceQuery "hello there").topics = [] := by decide

example : (enhanceQuery "What are the order limits for Ohio?").topics =
    ["ORDER_LIMIT"] := by decide

/-! ## Scoring layer (real-valued)

`Math.log` / `Math.sqrt` arithmetic is modelled over `ℝ`.  Sparse vectors
(`Map` objects of term → weight) are insertion-ordered association lists. -/

/-- Increment the count of `t` in an insertion-ordered counter map
(`map.set(term, (map.get(term) || 0) + 1)`). -/
def bump : List (String × Nat) → String → List (String × Nat)
  | [], t => [(t, 1)]
  | (u, n) :: rest, t =>
    if u = t then (u, n + 1) :: rest else (u, n) :: bump rest t

/-- Term-frequency map of a text, in first-occurrence order (the counting
loops of `createTextEmbedding` and `buildKeywordIndex`). -/
def termCounts (text : String) : List (String × Nat) :=
  (extractTerms text).foldl bump []

/-- Lookup with default 0 in a sparse real vector (`vec.get(t) || 0`). -/
noncomputable def vLookup (v : List (String × ℝ)) (t : String) : ℝ :=
  match v.find? (fun p => decide (p.1 = t)) with
  | some p => p.2
  | none => 0

/-- `AdvancedVectorDatabase.createTextEmbedding(text)` (advancedVectorDB.js
lines 396-413): term-frequency vector, L2-normalized when the norm is
positive. -/
noncomputable def createTextEmbedding (text : String) : List (String × ℝ) :=
  let counts := termCounts text
  let norm := Real.sqrt ((counts.map fun p => (p.2 : ℝ) * (p.2 : ℝ)).sum)
  if 0 < norm then counts.map (fun p => (p.1, (p.2 : ℝ) / norm))
  else counts.map (fun p => (p.1, (p.2 : ℝ)))

/-- `AdvancedVectorDatabase.cosineSimilarity(vec1, vec2)` (lines 434-461). -/
noncomputable def cosineSimilarity (v1 v2 : List (String × ℝ)) : ℝ :=
  let commonTerms :=
    ((v1.map Prod.fst).filter fun k => v2.any fun p => p.1 == k).foldl addUnique []
  if commonTerms.length = 0 then 0
  else
    let dotProduct := (commonTerms.map fun k => vLookup v1 k * vLookup v2 k).sum
    let norm1 := Real.sqrt ((v1.map fun p => p.2 * p.2).sum)
    let norm2 := Real.sqrt ((v2.map fun p => p.2 * p.2).sum)
    if 0 < norm1 ∧ 0 < norm2 then dotProduct / (norm1 * norm2) else 0

/-- The semantic index (`buildSemanticIndex`, lines 61-71) as a function of
the stored chunk list: `Map.set` overwrites, so the last chunk with a given
id wins. -/
noncomputable def semanticIndexGet (chunks : List Chunk) : Nat → Option (List (String × ℝ)) :=
  chunks.foldl
    (fun m c => fun j =>
      if j = c.chunk_id then some (createTextEmbedding c.text) else m j)
    (fun _ => none)

/-- `AdvancedVectorDatabase.calculateSemanticScore(query, chunkId)`
(lines 308-315). -/
noncomputable def calculateSemanticScore (chunks : List Chunk) (query : String)
    (chunkId : Nat) : ℝ :=
  match semanticIndexGet chunks chunkId with
  | none => 0
  | some v => cosineSimilarity (createTextEmbedding query) v

/-- Ids of the chunks containing term `t` (`documentFreq`, a `Set` of
chunk ids filled per occurrence — one membership test per chunk suffices,
since adding an id twice to a set is a no-op). -/
def docFreqIds (chunks : List Chunk) (t : String) : List Nat :=
  chunks.foldl
    (fun acc c => if t ∈ extractTerms c.text then addUnique acc c.chunk_id else acc)
    []

/-- `df(term)`: the size of the `documentFreq` set of `t`. -/
def docFreq (chunks : List Chunk) (t : String) : Nat := (docFreqIds chunks t).length

/-- The TF-IDF vector computed for chunk `c` in the second pass of
`buildKeywordIndex` (advancedVectorDB.js lines 99-115):
`tfidf = tf * Math.log(totalDocs / df)` per term of the chunk. -/
noncomputable def tfidfVector (chunks : List Chunk) (c : Chunk) : List (String × ℝ) :=
  (termCounts c.text).map fun p =>
    (p.1, (p.2 : ℝ) * Real.log ((chunks.length : ℝ) / (docFreq chunks p.1 : ℝ)))

/-- The keyword index (`buildKeywordIndex`) as a function of the chunk
list; as for the semantic index, the last chunk with a given id wins (both
the first-pass `termFreq` map and the final `keywordIndex.set` are keyed by
chunk id).  The diagnostic `topTerms` cache is not modelled (it is not used
by any scoring path). -/
noncomputable def keywordIndexGet (chunks : List Chunk) : Nat → Option (List (String × ℝ)) :=
  chunks.foldl
    (fun m c => fun j =>
      if j = c.chunk_id then some (tfidfVector chunks c) else m j)
    (fun _ => none)

/-- `AdvancedVectorDatabase.calculateKeywordScore(query, chunkId)`
(lines 320-335): mean TF-IDF weight of the query terms. -/
noncomputable def calculateKeywordScore (chunks : List Chunk) (query : String)
    (chunkId : Nat) : ℝ :=
  let queryTerms := extractTerms query
  match keywordIndexGet chunks chunkId with
  | none => 0
  | some v =>
    if queryTerms.length = 0 then 0
    else ((queryTerms.map fun t => vLookup v t).sum) / (queryTerms.length : ℝ)

/-- `AdvancedVectorDatabase.calculateMetadataScore(filters, chunk)`
(lines 340-371): fraction of active filter dimensions the chunk matches,
`0.5` when no dimension is active. -/
noncomputable def calculateMetadataScore (f : Filters) (c : Chunk) : ℝ :=
  let meta := c.metadata
  let score : ℝ := 0
  let maxScore : ℝ := 0
  let score :=
    if f.states ≠ [] ∧ meta.states.any (fun s => f.states.contains s) then score + 1
    else score
  let maxScore := if f.states ≠ [] then maxScore + 1 else maxScore
  let score :=
    if f.sections ≠ [] ∧ meta.sections.any (fun s => f.sections.contains s) then score + 1
    else score
  let maxScore := if f.sections ≠ [] then maxScore + 1 else maxScore
  let score :=
    if f.topics ≠ [] ∧ meta.topics.any (fun t => f.topics.contains t) then score + 1
    else score
  let maxScore := if f.topics ≠ [] then maxScore + 1 else maxScore
  if 0 < maxScore then score / maxScore else 0.5

/-- Strip the final filename extension:
`filename.replace(/\.[^/.]+$/, "")` (line 483).  The regex matches a dot
followed by one or more characters none of which is a dot or slash,
anchored at the end. -/
def stripExt (s : String) : String :=
  let r := s.toList.reverse
  let ext := r.takeWhile fun c => !(c == '.' || c == '/')
  match r.drop ext.length with
  | '.' :: rest => if ext.isEmpty then s else String.mk rest.reverse
  | _ => s

/-- `AdvancedVectorDatabase.extractImageKeywords(images)` (lines 476-487):
terms of each image's label and extension-stripped filename, deduplicated
preserving first occurrence. -/
def extractImageKeywords (images : List ImageRef) : List String :=
  (images.foldl
    (fun acc img =>
      let acc := if img.label ≠ "" then acc ++ extractTerms img.label else acc
      if img.filename ≠ "" then acc ++ extractTerms (stripExt img.filename) else acc)
    []).foldl addUnique []

/-- An entry of the image index (`buildImageIndex`, lines 171-183). -/
structure ImageInfo where
  chunkId : Nat
  images : List ImageRef
  imageCount : Nat
  imageKeywords : List String
deriving DecidableEq, Repr

/-- The image index as a function of the chunk list (only chunks with a
non-empty image list are indexed; last chunk with a given id wins). -/
def imageIndexGet (chunks : List Chunk) : Nat → Option ImageInfo :=
  chunks.foldl
    (fun m c =>
      if 0 < c.images.length then
        fun j =>
          if j = c.chunk_id then
            some ⟨c.chunk_id, c.images, c.images.length, extractImageKeywords c.images⟩
          else m j
      else m)
    (fun _ => none)

/-- `AdvancedVectorDatabase.calculateImageScore(query, chunkId)`
(lines 376-391): fraction of the chunk's image keywords occurring in the
lower-cased query. -/
noncomputable def calculateImageScore (chunks : List Chunk) (query : String)
    (chunkId : Nat) : ℝ :=
  match imageIndexGet chunks chunkId with
  | none => 0
  | some info =>
    let queryLower := jsLower query
    let matchCount :=
      (info.imageKeywords.filter fun k => strIncludes queryLower (jsLower k)).length
    if 0 < matchCount then (matchCount : ℝ) / (info.imageKeywords.length : ℝ) else 0

/-! ## Search configuration and fusion (`search`, lines 191-249) -/

/-- `searchConfig.maxResults` set by the constructor (line 17). -/
def cfgMaxResults : Nat := 10

/-- `searchConfig.semanticWeight` (line 18). -/
noncomputable def semanticWeight : ℝ := 0.4

/-- `searchConfig.keywordWeight` (line 19). -/
noncomputable def keywordWeight : ℝ := 0.3

/-- `searchConfig.metadataWeight` (line 20). -/
noncomputable def metadataWeight : ℝ := 0.3

/-- `searchConfig.imageBoost` (line 21). -/
noncomputable def imageBoost : ℝ := 0.1

/-- Options object of `search`; `options.maxResults || default` treats a
missing field and `0` alike (falsiness). -/
structure SearchOpts where
  maxResults : Option Nat := none
deriving DecidableEq, Repr

/-- `options.maxResults || this.searchConfig.maxResults` (line 235). -/
def effMaxResults (o : SearchOpts) : Nat :=
  match o.maxResults with
  | some n => if n = 0 then cfgMaxResults else n
  | none => cfgMaxResults

/-- A scored search result (the object pushed at lines 226-231; the
diagnostic `explanation` string, a pure function of the four component
scores, is not modelled — no claim mentions it). -/
structure ScoredResult where
  chunk : Chunk
  score : ℝ
  semantic : ℝ
  keyword : ℝ
  metadata : ℝ
  image : ℝ

/-- Scoring of one candidate chunk (lines 213-231). -/
noncomputable def scoreChunk (db : DB) (query : String) (f : Filters)
    (c : Chunk) : ScoredResult :=
  let s := calculateSemanticScore db.chunks query c.chunk_id
  let k := calculateKeywordScore db.chunks query c.chunk_id
  let m := calculateMetadataScore f c
  let i := calculateImageScore db.chunks query c.chunk_id
  { chunk := c
    score := s * semanticWeight + k * keywordWeight + m * metadataWeight + i * imageBoost
    semantic := s
    keyword := k
    metadata := m
    image := i }

/-- Insert into a descending-by-score list, after all entries of greater or
equal score: the position an ECMAScript stable sort with comparator
`(a, b) => b.score - a.score` assigns to a later-enumerated element. -/
noncomputable def insertScored (a : ScoredResult) : List ScoredResult → List ScoredResult
  | [] => [a]
  | b :: bs => if b.score < a.score then a :: b :: bs else b :: insertScored a bs

/-- Stable descending sort by fused score
(`.sort((a, b) => b.score - a.score)`, line 237). -/
noncomputable def sortByScoreDesc (l : List ScoredResult) : List ScoredResult :=
  l.foldl (fun acc a => insertScored a acc) []

/-- The value returned by `search` (lines 242-248); `searchTime` records
the `Date.now()` clock reading passed in by the environment. -/
structure SearchOutput where
  results : List ScoredResult
  query : String
  filters : Filters
  totalCandidates : Nat
  searchTime : Nat

/-- Error kinds surfaced by the retrieval core. -/
inductive SearchErr where
  | notReady
deriving DecidableEq, Repr

/-- `AdvancedVectorDatabase.search(query, filters, options)`
(advancedVectorDB.js lines 191-249).  The `Date.now()` reading is the
explicit parameter `now`, the only non-deterministic input of the
function; a thrown `Error('Vector database not initialized')` is the
`Except.error SearchErr.notReady` outcome. -/
noncomputable def search (db : DB) (query : String) (f : Filters)
    (opts : SearchOpts) (now : Nat) : Except SearchErr SearchOutput :=
  if db.initialized = false then Except.error SearchErr.notReady
  else
    let candidateIds := searchCandidateIds db f
    let scoredResults := candidateIds.filterMap fun chunkId =>
      (db.chunks.find? fun c => c.chunk_id == chunkId).map (scoreChunk db query f)
    let maxResults := effMaxResults opts
    Except.ok
      { results := (sortByScoreDesc scoredResults).take maxResults
        query := query
        filters := f
        totalCandidates := candidateIds.length
        searchTime := now }

/-- The not-ready guard of `search` in the `vectorDatabase.js` variant
(lines 266-270): when `isReady` is false the method logs a console warning
and returns an empty result list instead of raising.  The remainder of the
method body (lines 272 onward) is abstracted as `rest`, which may itself
error — the guard returns `[]` without ever reaching it. -/
def vdbSearchGuard (isReady : Bool)
    (rest : Unit → Except SearchErr (List Nat)) : Except SearchErr (List Nat) :=
  if isReady = false then Except.ok [] else rest ()

/-! ## Helper lemmas -/

/-- Membership in a JavaScript-set insertion. -/
theorem mem_addUnique {α : Type} [DecidableEq α] {l : List α} {a x : α} :
    x ∈ addUnique l a ↔ x ∈ l ∨ x = a := by
  unfold addUnique
  split
  · rename_i h
    constructor
    · exact Or.inl
    · rintro (hx | rfl)
      · exact hx
      · exact h
  · simp [List.mem_append]

/-- Membership after accumulating a bucket into a set. -/
theorem mem_foldl_addUnique {l acc : List Nat} {x : Nat} :
    x ∈ l.foldl addUnique acc ↔ x ∈ acc ∨ x ∈ l := by
  induction l generalizing acc with
  | nil => simp
  | cons a as ih =>
    rw [List.foldl_cons, ih, mem_addUnique]
    simp [or_assoc, or_comm, or_left_comm]

/-- Membership in the union of index buckets. -/
theorem mem_bucketUnion {idx : String → List Nat} {tags : List String} {x : Nat} :
    x ∈ bucketUnion idx tags ↔ ∃ t ∈ tags, x ∈ idx t := by
  unfold bucketUnion
  suffices h : ∀ acc : List Nat,
      x ∈ tags.foldl (fun acc s => (idx s).foldl addUnique acc) acc ↔
        x ∈ acc ∨ ∃ t ∈ tags, x ∈ idx t by
    simpa using h []
  induction tags with
  | nil => simp
  | cons t ts ih =>
    intro acc
    rw [List.foldl_cons, ih, mem_foldl_addUnique]
    simp [or_assoc]

/-- The bucket union over everywhere-empty buckets is empty. -/
theorem bucketUnion_empty_idx (tags : List String) :
    bucketUnion (fun _ => []) tags = [] := by
  unfold bucketUnion
  induction tags with
  | nil => rfl
  | cons t ts ih =>
    simp only [List.foldl_cons, List.foldl_nil]
    exact ih

/-! ## C1 — empty-candidate fallback to the full chunk set -/

/-- C1: for every built index and filters object, if candidate narrowing
over the metadata inverted indices yields zero candidate ids, `search`
falls back to scoring the full chunk set: the candidate list it uses is
exactly the list of all chunk ids, and is non-empty whenever chunks were
indexed. -/
theorem narrowing_empty_falls_back_to_full_set (db : DB) (f : Filters)
    (h : applyCandidateFilters db f = []) :
    searchCandidateIds db f = db.chunks.map (·.chunk_id) ∧
      (db.chunks ≠ [] → searchCandidateIds db f ≠ []) := by
  constructor
  · simp [searchCandidateIds, h]
  · intro hne
    simp only [searchCandidateIds, h, if_pos rfl]
    simpa using hne

/-- Witness for C1: a single-chunk index and a filter tag (`"ZZ"`) carried
by no chunk produce zero narrowed candidates, and the candidate list used
by `search` is the full id list. -/
theorem narrowing_empty_falls_back_to_full_set_witness :
    applyCandidateFilters
        (DB.build [{ chunk_id := 0, metadata := { states := ["OH"] } }])
        { states := ["ZZ"] } = [] ∧
      searchCandidateIds
        (DB.build [{ chunk_id := 0, metadata := { states := ["OH"] } }])
        { states := ["ZZ"] } =
        ([{ chunk_id := 0, metadata := { states := ["OH"] } }] : List Chunk).map
          (·.chunk_id) :=
  ⟨by decide,
   (narrowing_empty_falls_back_to_full_set
      (DB.build [{ chunk_id := 0, metadata := { states := ["OH"] } }])
      { states := ["ZZ"] } (by decide)).1⟩

/-! ## C3 — searching before a successful build -/

/-- C3 (amended): in the advancedVectorDB.js engine, `search` before any
successful build surfaces the NotReady-kind error to the caller. -/
theorem search_before_build_errors (db : DB) (query : String) (f : Filters)
    (opts : SearchOpts) (now : Nat) (h : db.initialized = false) :
    search db query f opts now = Except.error SearchErr.notReady := by
  simp [search, h]

/-- Witness for C3: the freshly constructed database is uninitialized and
`search` on it fails with the NotReady kind. -/
theorem search_before_build_errors_witness :
    DB.new.initialized = false ∧
      search DB.new "anything" {} {} 0 = Except.error SearchErr.notReady :=
  ⟨rfl, search_before_build_errors DB.new "anything" {} {} 0 rfl⟩

/-- C3 (counterexample to the claim as stated): the `vectorDatabase.js`
variant of `search` silently recovers the not-ready condition — it returns
an empty result list (after only a console warning) even when the rest of
its body would have raised, so a search-time error is converted into an
empty result list. -/
theorem vdb_search_swallows_not_ready :
    vdbSearchGuard false (fun _ => Except.error SearchErr.notReady) =
      Except.ok [] := rfl

/-! ## C8 — building with an empty chunk collection -/

/-- Narrowing over the empty index yields no candidates, whatever the
filters. -/
theorem applyCandidateFilters_build_nil (f : Filters) :
    applyCandidateFilters (DB.build []) f = [] := by
  unfold applyCandidateFilters
  split_ifs <;>
    simp [DB.build, buildStateIdx, buildSectionIdx, buildTopicIdx,
      buildHasImagesIdx, bucketUnion_empty_idx]

/-- The fallback set over the empty chunk list is also empty. -/
theorem searchCandidateIds_build_nil (f : Filters) :
    searchCandidateIds (DB.build []) f = [] := by
  unfold searchCandidateIds
  rw [applyCandidateFilters_build_nil]
  simp only [if_pos]
  rfl

/-- C8: building with an empty chunk collection succeeds and leaves the
index ready: every subsequent search returns `Except.ok` with an empty
result list (no exception), for every query, filters and options. -/
theorem build_empty_then_search_returns_empty (query : String) (f : Filters)
    (opts : SearchOpts) (now : Nat) :
    (DB.build []).initialized = true ∧
      (search (DB.build []) query f opts now).map (·.results) = Except.ok [] := by
  refine ⟨rfl, ?_⟩
  have hinit : (DB.build []).initialized = true := rfl
  simp [search, hinit, searchCandidateIds_build_nil, sortByScoreDesc, Except.map]

/-! ## C9 — determinism of search -/

/-- C9: for a fixed database state, query, filters and options, two calls
to `search` — differing only in the `Date.now()` clock reading, the sole
non-deterministic input — return the same ranked results (fused and
per-index scores included), the same candidate count, and echo the same
query and filters; scoring uses no randomness. -/
theorem search_deterministic (db : DB) (query : String) (f : Filters)
    (opts : SearchOpts) (now₁ now₂ : Nat) :
    (search db query f opts now₁).map
        (fun o => (o.results, o.query, o.filters, o.totalCandidates)) =
      (search db query f opts now₂).map
        (fun o => (o.results, o.query, o.filters, o.totalCandidates)) := by
  by_cases h : db.initialized = false <;> simp [search, h, Except.map]

/-! ## C10 — hasImages: false does not constrain candidates -/

/-- C10: narrowing with `hasImages` explicitly `false` yields the same
candidate set as omitting the `hasImages` filter entirely — only a truthy
value constrains candidates. -/
theorem hasImages_false_same_as_absent (db : DB) (f : Filters) :
    applyCandidateFilters db { f with hasImages := some false } =
      applyCandidateFilters db { f with hasImages := none } := by
  simp [applyCandidateFilters]

/-! ## C5 — the OH candidate set -/

/-- Membership after one `tagAdd` insertion. -/
theorem mem_tagAdd {idx : String → List Nat} {tag : String} {cid : Nat}
    {s : String} {x : Nat} :
    x ∈ tagAdd idx tag cid s ↔ x ∈ idx s ∨ (s = tag ∧ x = cid) := by
  unfold tagAdd
  by_cases h : s = tag
  · subst h
    simp [List.mem_append]
  · simp [h]

/-- Membership in one chunk's contribution to a tag index. -/
theorem mem_states_foldl_tagAdd {states : List String} {idx : String → List Nat}
    {cid : Nat} {s : String} {x : Nat} :
    x ∈ (states.foldl (fun i st => tagAdd i st cid) idx) s ↔
      x ∈ idx s ∨ (x = cid ∧ s ∈ states) := by
  induction states generalizing idx with
  | nil => simp
  | cons st sts ih =>
    rw [List.foldl_cons, ih, mem_tagAdd]
    simp only [List.mem_cons]
    tauto

/-- Membership in the `states` inverted index: exactly the ids of chunks
carrying the tag. -/
theorem mem_buildStateIdx {chunks : List Chunk} {s : String} {x : Nat} :
    x ∈ buildStateIdx chunks s ↔
      ∃ c ∈ chunks, c.chunk_id = x ∧ s ∈ c.metadata.states := by
  unfold buildStateIdx
  suffices h : ∀ idx : String → List Nat,
      x ∈ (chunks.foldl
        (fun idx c => c.metadata.states.foldl (fun i st => tagAdd i st c.chunk_id) idx)
        idx) s ↔
        x ∈ idx s ∨ ∃ c ∈ chunks, c.chunk_id = x ∧ s ∈ c.metadata.states by
    simpa using h (fun _ => [])
  induction chunks with
  | nil => simp
  | cons c cs ih =>
    intro idx
    rw [List.foldl_cons, ih, mem_states_foldl_tagAdd]
    constructor
    · rintro ((h | ⟨rfl, hmem⟩) | ⟨c', hc', rfl, hmem⟩)
      · exact Or.inl h
      · exact Or.inr ⟨c, List.mem_cons_self .., rfl, hmem⟩
      · exact Or.inr ⟨c', List.mem_cons_of_mem _ hc', rfl, hmem⟩
    · rintro (h | ⟨c', hc', rfl, hmem⟩)
      · exact Or.inl (Or.inl h)
      · rcases List.mem_cons.mp hc' with rfl | hc'
        · exact Or.inl (Or.inr ⟨rfl, hmem⟩)
        · exact Or.inr ⟨c', hc', rfl, hmem⟩

/-- Narrowing by a pure states filter is the union of the state buckets. -/
theorem applyCandidateFilters_states_only (db : DB) (states : List String)
    (hne : states ≠ []) :
    applyCandidateFilters db { states := states } =
      bucketUnion db.stateIdx states := by
  unfold applyCandidateFilters
  simp [hne]

/-- C5: for every indexed chunk collection with distinct chunk ids, the
candidate set narrowed from the filter `{states: ["OH"]}` contains only
ids of indexed chunks, every chunk whose id it contains carries `"OH"` in
its metadata states, and the candidate set `search` actually scores is the
narrowed set or — on fallback — exactly the full chunk-id list. -/
theorem oh_candidates_subset_and_tagged (chunks : List Chunk)
    (hnd : (chunks.map (·.chunk_id)).Nodup) :
    (∀ x ∈ applyCandidateFilters (DB.build chunks) { states := ["OH"] },
        x ∈ chunks.map (·.chunk_id)) ∧
      (∀ c ∈ chunks,
        c.chunk_id ∈ applyCandidateFilters (DB.build chunks) { states := ["OH"] } →
          "OH" ∈ c.metadata.states) ∧
      (searchCandidateIds (DB.build chunks) { states := ["OH"] } =
          applyCandidateFilters (DB.build chunks) { states := ["OH"] } ∨
        searchCandidateIds (DB.build chunks) { states := ["OH"] } =
          chunks.map (·.chunk_id)) := by
  have hidx : (DB.build chunks).stateIdx = buildStateIdx chunks := rfl
  have hmem : ∀ x, x ∈ applyCandidateFilters (DB.build chunks) { states := ["OH"] } ↔
      ∃ c ∈ chunks, c.chunk_id = x ∧ "OH" ∈ c.metadata.states := by
    intro x
    rw [applyCandidateFilters_states_only _ _ (by simp), hidx, mem_bucketUnion]
    simp [mem_buildStateIdx]
  refine ⟨?_, ?_, ?_⟩
  · intro x hx
    rcases (hmem x).mp hx with ⟨c, hc, rfl, _⟩
    exact List.mem_map_of_mem _ hc
  · intro c hc hcid
    rcases (hmem c.chunk_id).mp hcid with ⟨c', hc', hid, hoh⟩
    have : c' = c := by
      have hinj := List.inj_on_of_nodup_map hnd
      exact hinj hc' hc hid
    exact this ▸ hoh
  · unfold searchCandidateIds
    by_cases h : applyCandidateFilters (DB.build chunks) { states := ["OH"] } = []
    · right
      rw [if_pos h]
      rfl
    · left
      rw [if_neg h]

/-- Witness for C5: a two-chunk collection with distinct ids;
the narrowed OH candidate set is `[0]`, inside the full id list, and chunk
0 carries the tag. -/
theorem oh_candidates_subset_and_tagged_witness :
    (([{ chunk_id := 0, metadata := { states := ["OH"] } },
       { chunk_id := 1, metadata := { states := ["MD"] } }] : List Chunk).map
        (·.chunk_id)).Nodup ∧
      (∀ c ∈ ([{ chunk_id := 0, metadata := { states := ["OH"] } },
               { chunk_id := 1, metadata := { states := ["MD"] } }] : List Chunk),
        c.chunk_id ∈ applyCandidateFilters
          (DB.build [{ chunk_id := 0, metadata := { states := ["OH"] } },
                     { chunk_id := 1, metadata := { states := ["MD"] } }])
          { states := ["OH"] } →
          "OH" ∈ c.metadata.states) :=
  ⟨by decide,
   (oh_candidates_subset_and_tagged
      [{ chunk_id := 0, metadata := { states := ["OH"] } },
       { chunk_id := 1, metadata := { states := ["MD"] } }] (by decide)).2.1⟩


/-! ## C6 — TF-IDF weights -/

/-- `find?` after one counter increment. -/
theorem find?_bump (l : List (String × Nat)) (u t : String) :
    (bump l u).find? (fun p => decide (p.1 = t)) =
      if t = u then
        some (t, (((l.find? (fun p => decide (p.1 = t))).map Prod.snd).getD 0) + 1)
      else l.find? (fun p => decide (p.1 = t)) := by
  induction l with
  | nil =>
    by_cases h : t = u
    · subst h
      simp [bump, List.find?]
    · simp [bump, List.find?, h, Ne.symm h]
  | cons a rest ih =>
    obtain ⟨v, n⟩ := a
    by_cases hvu : v = u
    · subst hvu
      by_cases htv : t = v
      · subst htv
        simp [bump, List.find?]
      · simp [bump, List.find?, htv, Ne.symm htv]
    · by_cases hvt : v = t
      · have htu : ¬ t = u := fun h => hvu (hvt.trans h)
        simp [bump, hvu, List.find?, hvt, htu]
      · simp [bump, hvu, List.find?, hvt, ih]

/-- `find?` over the whole counting fold: the final count of `t` is its
occurrence count in the folded term list. -/
theorem foldl_bump_find? (ts : List String) (acc : List (String × Nat)) (t : String) :
    (ts.foldl bump acc).find? (fun p => decide (p.1 = t)) =
      match acc.find? (fun p => decide (p.1 = t)) with
      | some p => some (p.1, p.2 + ts.count t)
      | none => if t ∈ ts then some (t, ts.count t) else none := by
  induction ts generalizing acc with
  | nil =>
    cases h : acc.find? (fun p => decide (p.1 = t)) <;> simp [h]
  | cons u us ih =>
    rw [List.foldl_cons, ih (bump acc u), find?_bump]
    by_cases htu : t = u
    · subst htu
      cases h : acc.find? (fun p => decide (p.1 = t)) with
      | none =>
        simp [h, List.count_cons, List.mem_cons]
        omega
      | some q =>
        have hq : q.1 = t := by simpa using List.find?_some h
        simp [h, hq, List.count_cons]
        omega
    · cases h : acc.find? (fun p => decide (p.1 = t)) with
      | none =>
        simp [h, List.count_cons, htu, List.mem_cons, Ne.symm htu]
      | some q =>
        simp [h, List.count_cons, htu, Ne.symm htu]

/-- The term-frequency map of a chunk holds exactly the occurrence counts
of its term list. -/
theorem termCounts_find? (text t : String) :
    (termCounts text).find? (fun p => decide (p.1 = t)) =
      if t ∈ extractTerms text then some (t, (extractTerms text).count t)
      else none := by
  unfold termCounts
  rw [foldl_bump_find?]
  simp [List.find?]

/-- `find?` by key commutes with a key-preserving value map. -/
theorem find?_map_keyed {β : Type} (l : List (String × Nat))
    (g : String × Nat → β) (t : String) :
    ((l.map fun p => (p.1, g p)).find? (fun p => decide (p.1 = t))) =
      (l.find? (fun p => decide (p.1 = t))).map fun p => (p.1, g p) := by
  induction l with
  | nil => rfl
  | cons a as ih =>
    by_cases h : a.1 = t <;> simp [List.find?, h, ih]

/-- The `documentFreq` set under distinct chunk ids is the id list of the
chunks containing the term, in order. -/
theorem docFreqIds_aux (t : String) :
    ∀ (chunks : List Chunk) (acc : List Nat),
      (chunks.map (·.chunk_id)).Nodup →
      (∀ c ∈ chunks, c.chunk_id ∉ acc) →
      chunks.foldl
          (fun acc c =>
            if t ∈ extractTerms c.text then addUnique acc c.chunk_id else acc)
          acc =
        acc ++ (chunks.filter fun c => decide (t ∈ extractTerms c.text)).map (·.chunk_id)
  | [], acc, _, _ => by simp
  | c :: cs, acc, hnd, hacc => by
    rw [List.map_cons, List.nodup_cons] at hnd
    rw [List.foldl_cons]
    by_cases hc : t ∈ extractTerms c.text
    · rw [if_pos hc]
      have hnotin : c.chunk_id ∉ acc := hacc c (List.mem_cons_self ..)
      have hadd : addUnique acc c.chunk_id = acc ++ [c.chunk_id] := by
        unfold addUnique
        rw [if_neg hnotin]
      rw [hadd, docFreqIds_aux t cs (acc ++ [c.chunk_id]) hnd.2 ?side]
      · simp [List.filter_cons, hc, List.append_assoc]
      case side =>
        intro c' hc'
        simp only [List.mem_append, List.mem_singleton]
        rintro (hin | heq)
        · exact hacc c' (List.mem_cons_of_mem _ hc') hin
        · exact hnd.1 (heq ▸ List.mem_map_of_mem (·.chunk_id) hc')
    · rw [if_neg hc,
        docFreqIds_aux t cs acc hnd.2
          (fun c' h' => hacc c' (List.mem_cons_of_mem _ h'))]
      simp [List.filter_cons, hc]

/-- `df(t)` equals the number of chunks containing `t`, given distinct ids. -/
theorem docFreq_eq_filter_length (chunks : List Chunk) (t : String)
    (hnd : (chunks.map (·.chunk_id)).Nodup) :
    docFreq chunks t =
      (chunks.filter fun c => decide (t ∈ extractTerms c.text)).length := by
  unfold docFreq docFreqIds
  rw [docFreqIds_aux t chunks [] hnd (by simp)]
  simp

/-- C6: in the keyword index, the weight of every term of a chunk equals
its term frequency in the chunk times `ln(N / df)`, with `N` the chunk
count and `df` the number of chunks containing the term; consequently a
term contained in every chunk has weight 0 regardless of its frequency. -/
theorem tfidf_weight_formula (chunks : List Chunk) (c : Chunk) (t : String)
    (hc : c ∈ chunks) (hnd : (chunks.map (·.chunk_id)).Nodup)
    (ht : t ∈ extractTerms c.text) :
    vLookup (tfidfVector chunks c) t =
        ((extractTerms c.text).count t : ℝ) *
          Real.log ((chunks.length : ℝ) /
            ((chunks.filter fun c' => decide (t ∈ extractTerms c'.text)).length : ℝ)) ∧
      ((chunks.filter fun c' => decide (t ∈ extractTerms c'.text)).length =
          chunks.length →
        vLookup (tfidfVector chunks c) t = 0) := by
  have hdf := docFreq_eq_filter_length chunks t hnd
  have hlook : vLookup (tfidfVector chunks c) t =
      ((extractTerms c.text).count t : ℝ) *
        Real.log ((chunks.length : ℝ) / (docFreq chunks t : ℝ)) := by
    unfold vLookup tfidfVector
    rw [find?_map_keyed, termCounts_find?, if_pos ht]
    simp
  constructor
  · rw [hlook, hdf]
  · intro hNdf
    rw [hlook, hdf, hNdf]
    have hN : (0 : ℝ) < (chunks.length : ℝ) := by
      have h1 : chunks ≠ [] := List.ne_nil_of_mem hc
      have h2 := List.length_pos.mpr h1
      exact_mod_cast h2
    rw [div_self (ne_of_gt hN)]
    simp

/-- Witness for C6: two chunks, both containing the term `"ohio"`, so
`df = N = 2` and the TF-IDF weight of `"ohio"` is zero in the first chunk
although its term frequency is positive. -/
theorem tfidf_weight_formula_witness :
    ({ chunk_id := 0, text := "ohio pricing" } : Chunk) ∈
        ([{ chunk_id := 0, text := "ohio pricing" },
          { chunk_id := 1, text := "ohio batteries" }] : List Chunk) ∧
      (([{ chunk_id := 0, text := "ohio pricing" },
         { chunk_id := 1, text := "ohio batteries" }] : List Chunk).map
          (·.chunk_id)).Nodup ∧
      "ohio" ∈ extractTerms "ohio pricing" ∧
      (([{ chunk_id := 0, text := "ohio pricing" },
         { chunk_id := 1, text := "ohio batteries" }] : List Chunk).filter
          fun c' => decide ("ohio" ∈ extractTerms c'.text)).length =
        ([{ chunk_id := 0, text := "ohio pricing" },
          { chunk_id := 1, text := "ohio batteries" }] : List Chunk).length ∧
      vLookup
        (tfidfVector
          [{ chunk_id := 0, text := "ohio pricing" },
           { chunk_id := 1, text := "ohio batteries" }]
          { chunk_id := 0, text := "ohio pricing" }) "ohio" = 0 :=
  ⟨by decide, by decide, by decide, by decide,
   (tfidf_weight_formula
      [{ chunk_id := 0, text := "ohio pricing" },
       { chunk_id := 1, text := "ohio batteries" }]
      { chunk_id := 0, text := "ohio pricing" } "ohio"
      (by decide) (by decide) (by decide)).2 (by decide)⟩

/-! ## C4 — the confidence formula -/

/-- `Math.min(c, 1.0)` of a non-negative value is the clamp of `c` to
`[0, 1]`. -/
theorem jsMinOne_eq_clamp (c : ℚ) (h : 0 ≤ c) :
    (if c ≤ 1 then c else 1) = max 0 (min 1 c) := by
  split_ifs with hle
  · rw [min_eq_right hle, max_eq_right h]
  · push_neg at hle
    rw [min_eq_left hle.le]
    norm_num

/-- `calculateConfidence` in closed form: base 0.5, +0.2 per extracted
state / order type, +0.1·min(topics, 3), clamped to `[0, 1]`. -/
theorem calculateConfidence_formula (st ot : Option String) (tp : List String) :
    calculateConfidence st ot tp =
      max 0 (min 1 ((1/2 : ℚ) + (if st.isSome then (1/5 : ℚ) else 0) +
        (if ot.isSome then (1/5 : ℚ) else 0) +
        (1/10 : ℚ) * (Nat.min tp.length 3 : ℕ))) := by
  unfold calculateConfidence
  rw [jsMinOne_eq_clamp]
  · congr 2
    split_ifs
    all_goals try ring_nf
    all_goals
      have h0 : tp.length = 0 := by omega
      simp [h0]
  · split_ifs <;> positivity

/-- C4: for every query string, the confidence returned by query analysis
equals 0.5, plus 0.2 if a state was extracted, plus 0.2 if an order type
was extracted, plus 0.1 times min(number of topics, 3), clamped to
`[0, 1]` (as exact rationals: 1/2, 1/5, 1/5, 1/10). -/
theorem query_confidence_formula (query : String) :
    (enhanceQuery query).confidence =
      max 0 (min 1 ((1/2 : ℚ) +
        (if (enhanceQuery query).state.isSome then (1/5 : ℚ) else 0) +
        (if (enhanceQuery query).orderType.isSome then (1/5 : ℚ) else 0) +
        (1/10 : ℚ) * (Nat.min (enhanceQuery query).topics.length 3 : ℕ))) := by
  have h := calculateConfidence_formula (extractState (jsLower query))
    (extractOrderType (jsLower query)) (extractTopics (jsLower query))
  simpa [enhanceQuery] using h

/-! ## C7 — corpus tokenizer vs query-keyword tokenizer -/

/-- C7 (counterexample to the claim as stated): the two tokenizers are not
the same function — on the input `"what"` the corpus tokenizer
`extractTerms` keeps the token while `extractKeywords` discards it (its
stopword set additionally contains the question words), so their outputs
differ. -/
theorem tokenizers_differ_on_what :
    extractKeywords "what" ≠ extractTerms "what" := by decide

/-- C7 (amended): the two tokenizers share lower-casing, punctuation
stripping, the length ≤ 2 discard and the base stopword set, and they
produce identical ordered token lists on every text none of whose corpus
tokens is one of the additional question-word stopwords and whose token
list does not exceed the 10-token truncation of `extractKeywords`. -/
theorem tokenizers_agree_outside_question_words (text : String)
    (h1 : ∀ w ∈ extractTerms text, w ∉ questionWords)
    (h2 : (extractTerms text).length ≤ 10) :
    extractKeywords text = extractTerms text := by
  unfold extractKeywords
  have hfilter : (((wordRuns (jsLower text).toList).map String.mk).filter fun w =>
      decide (2 < w.length) && !(decide (w ∈ stopWordsQI))) = extractTerms text := by
    unfold extractTerms
    apply List.filter_congr
    intro w hw
    by_cases hlen : 2 < w.length
    · by_cases hdb : w ∈ stopWordsDB
      · simp [stopWordsQI, hlen, hdb]
      · have hw1 : w ∈ extractTerms text := by
          unfold extractTerms
          exact List.mem_filter.mpr ⟨hw, by simp [hlen, hdb]⟩
        have hex := h1 w hw1
        simp [stopWordsQI, hlen, hdb, hex]
    · simp [hlen]
  rw [hfilter]
  exact List.take_of_length_le h2

/-- Witness for C7: a text avoiding the question words with at most 10
tokens, on which both tokenizers agree. -/
theorem tokenizers_agree_outside_question_words_witness :
    (∀ w ∈ extractTerms "Ohio battery pricing rules", w ∉ questionWords) ∧
      (extractTerms "Ohio battery pricing rules").length ≤ 10 ∧
      extractKeywords "Ohio battery pricing rules" =
        extractTerms "Ohio battery pricing rules" :=
  ⟨by decide, by decide,
   tokenizers_agree_outside_question_words "Ohio battery pricing rules"
     (by decide) (by decide)⟩

/-! ## C2 — result count, ordering and contents -/

/-- Inserting grows the length by one. -/
theorem length_insertScored (a : ScoredResult) (l : List ScoredResult) :
    (insertScored a l).length = l.length + 1 := by
  induction l with
  | nil => rfl
  | cons b bs ih =>
    unfold insertScored
    split_ifs <;> simp [ih]

/-- The stable sort is a permutation in size. -/
theorem length_sortByScoreDesc (l : List ScoredResult) :
    (sortByScoreDesc l).length = l.length := by
  unfold sortByScoreDesc
  suffices h : ∀ acc : List ScoredResult,
      (l.foldl (fun acc a => insertScored a acc) acc).length = acc.length + l.length by
    simpa using h []
  induction l with
  | nil => simp
  | cons a as ih =>
    intro acc
    rw [List.foldl_cons, ih, length_insertScored]
    simp [List.length_cons]
    omega

/-- Membership through insertion. -/
theorem mem_insertScored {x a : ScoredResult} {l : List ScoredResult} :
    x ∈ insertScored a l ↔ x = a ∨ x ∈ l := by
  induction l with
  | nil => simp [insertScored]
  | cons b bs ih =>
    unfold insertScored
    split_ifs <;> (simp [ih]; try tauto)

/-- Membership through the stable sort. -/
theorem mem_sortByScoreDesc {x : ScoredResult} {l : List ScoredResult} :
    x ∈ sortByScoreDesc l ↔ x ∈ l := by
  unfold sortByScoreDesc
  suffices h : ∀ acc : List ScoredResult,
      x ∈ l.foldl (fun acc a => insertScored a acc) acc ↔ x ∈ acc ∨ x ∈ l by
    simpa using h []
  induction l with
  | nil => simp
  | cons a as ih =>
    intro acc
    rw [List.foldl_cons, ih, mem_insertScored]
    simp [or_assoc, or_comm, or_left_comm]

/-- Insertion preserves the descending-by-score invariant. -/
theorem pairwise_insertScored {a : ScoredResult} {l : List ScoredResult}
    (h : l.Pairwise fun p q => q.score ≤ p.score) :
    (insertScored a l).Pairwise fun p q => q.score ≤ p.score := by
  induction l with
  | nil => simp [insertScored]
  | cons b bs ih =>
    rw [List.pairwise_cons] at h
    obtain ⟨hb, hbs⟩ := h
    unfold insertScored
    split_ifs with hlt
    · refine List.Pairwise.cons ?_ (List.Pairwise.cons hb hbs)
      intro x hx
      rcases List.mem_cons.mp hx with rfl | hx
      · exact le_of_lt hlt
      · exact (hb x hx).trans (le_of_lt hlt)
    · refine List.Pairwise.cons ?_ (ih hbs)
      intro x hx
      rcases mem_insertScored.mp hx with rfl | hx
      · exact not_lt.mp hlt
      · exact hb x hx

/-- The stable sort produces a descending-by-score list. -/
theorem pairwise_sortByScoreDesc (l : List ScoredResult) :
    (sortByScoreDesc l).Pairwise fun p q => q.score ≤ p.score := by
  unfold sortByScoreDesc
  suffices h : ∀ acc : List ScoredResult,
      acc.Pairwise (fun p q => q.score ≤ p.score) →
      (l.foldl (fun acc a => insertScored a acc) acc).Pairwise
        fun p q => q.score ≤ p.score by
    exact h [] List.Pairwise.nil
  induction l with
  | nil => exact fun acc h => h
  | cons a as ih =>
    intro acc h
    rw [List.foldl_cons]
    exact ih _ (pairwise_insertScored h)

/-- C2 (amended): on an initialized database, `search` returns at most
`maxResults` results — default `searchConfig.maxResults = 10` when the
caller supplies no `maxResults` option — sorted in descending order of
fused score, each result carrying the original chunk, the fused score and
the per-index component scores, the fused score being the fixed-weight
combination of the components; equal fused scores keep the candidate
enumeration order (ECMAScript stable sort), not lower-chunk-id order. -/
theorem search_ranked_and_bounded (db : DB) (query : String) (f : Filters)
    (opts : SearchOpts) (now : Nat) (h : db.initialized = true) :
    ∃ out, search db query f opts now = Except.ok out ∧
      out.results.length ≤ effMaxResults opts ∧
      (opts.maxResults = none → effMaxResults opts = cfgMaxResults ∧ cfgMaxResults = 10) ∧
      out.results.Pairwise (fun p q => q.score ≤ p.score) ∧
      ∀ r ∈ out.results,
        r.score = r.semantic * semanticWeight + r.keyword * keywordWeight +
            r.metadata * metadataWeight + r.image * imageBoost ∧
        r.chunk ∈ db.chunks := by
  unfold search
  rw [if_neg (by simp [h])]
  refine ⟨_, rfl, ?_, ?_, ?_, ?_⟩
  · rw [List.length_take]
    exact min_le_left _ _
  · intro hnone
    exact ⟨by simp [effMaxResults, hnone], rfl⟩
  · exact (pairwise_sortByScoreDesc _).sublist (List.take_sublist _ _)
  · intro r hr
    have hr2 : r ∈ sortByScoreDesc _ := List.mem_of_mem_take hr
    obtain ⟨id, hid, hmap⟩ := List.mem_filterMap.mp (mem_sortByScoreDesc.mp hr2)
    obtain ⟨c, hfind, hc⟩ := Option.map_eq_some'.mp hmap
    subst hc
    exact ⟨rfl, List.mem_of_find?_eq_some hfind⟩

/-- Witness for C2 (amended): a one-chunk initialized database. -/
theorem search_ranked_and_bounded_witness :
    (DB.build [{ chunk_id := 0 }]).initialized = true ∧
      ∃ out, search (DB.build [{ chunk_id := 0 }]) "ohio" {} {} 0 = Except.ok out ∧
        out.results.length ≤ effMaxResults {} ∧
        (({} : SearchOpts).maxResults = none →
          effMaxResults {} = cfgMaxResults ∧ cfgMaxResults = 10) ∧
        out.results.Pairwise (fun p q => q.score ≤ p.score) ∧
        ∀ r ∈ out.results,
          r.score = r.semantic * semanticWeight + r.keyword * keywordWeight +
              r.metadata * metadataWeight + r.image * imageBoost ∧
          r.chunk ∈ (DB.build [{ chunk_id := 0 }]).chunks :=
  ⟨rfl, search_ranked_and_bounded (DB.build [{ chunk_id := 0 }]) "ohio" {} {} 0 rfl⟩

/-- The empty query has no terms, hence an empty embedding. -/
theorem createTextEmbedding_empty : createTextEmbedding "" = [] := by
  unfold createTextEmbedding
  have h : termCounts "" = [] := by decide
  rw [h]
  simp

/-- Cosine similarity against an empty left vector is zero. -/
theorem cosineSimilarity_nil_left (v : List (String × ℝ)) :
    cosineSimilarity [] v = 0 := by
  unfold cosineSimilarity
  simp

/-- The semantic score of the empty query is zero for every chunk. -/
theorem semanticScore_empty_query (chunks : List Chunk) (id : Nat) :
    calculateSemanticScore chunks "" id = 0 := by
  unfold calculateSemanticScore
  cases semanticIndexGet chunks id with
  | none => rfl
  | some v =>
    rw [createTextEmbedding_empty]
    simp [cosineSimilarity_nil_left]

/-- The keyword score of the empty query is zero for every chunk. -/
theorem keywordScore_empty_query (chunks : List Chunk) (id : Nat) :
    calculateKeywordScore chunks "" id = 0 := by
  unfold calculateKeywordScore
  have h : extractTerms "" = [] := by decide
  cases keywordIndexGet chunks id with
  | none => rfl
  | some v => simp [h]

/-- With no active filter dimension, the metadata score is the neutral 0.5. -/
theorem metadataScore_no_filters (c : Chunk) :
    calculateMetadataScore {} c = 0.5 := by
  unfold calculateMetadataScore
  norm_num

/-- A chunk absent from the image index scores zero on the image axis. -/
theorem imageScore_of_not_indexed (chunks : List Chunk) (query : String)
    (id : Nat) (him : imageIndexGet chunks id = none) :
    calculateImageScore chunks query id = 0 := by
  unfold calculateImageScore
  rw [him]

/-- Fused score of an image-free chunk under the empty query and empty
filters: the neutral metadata score is the only non-zero component. -/
theorem scoreChunk_empty_query_score (db : DB) (c : Chunk)
    (him : imageIndexGet db.chunks c.chunk_id = none) :
    (scoreChunk db "" {} c).score = (0.5 : ℝ) * metadataWeight := by
  unfold scoreChunk
  simp only [semanticScore_empty_query, keywordScore_empty_query,
    metadataScore_no_filters, imageScore_of_not_indexed db.chunks "" c.chunk_id him]
  ring

/-- An insertion below everything of not-larger score lands at the end —
the stable-sort behaviour on ties. -/
theorem insertScored_append (a : ScoredResult) (l : List ScoredResult)
    (h : ∀ b ∈ l, ¬ b.score < a.score) :
    insertScored a l = l ++ [a] := by
  induction l with
  | nil => rfl
  | cons b bs ih =>
    unfold insertScored
    rw [if_neg (h b (List.mem_cons_self ..)),
      ih (fun x hx => h x (List.mem_cons_of_mem _ hx))]
    rfl

/-- A list of equal fused scores is left in enumeration order by the
stable sort. -/
theorem sortByScoreDesc_const_score (l : List ScoredResult) (S : ℝ)
    (hl : ∀ r ∈ l, r.score = S) : sortByScoreDesc l = l := by
  unfold sortByScoreDesc
  suffices h : ∀ acc : List ScoredResult, (∀ r ∈ acc, r.score = S) →
      l.foldl (fun acc a => insertScored a acc) acc = acc ++ l by
    simpa using h [] (by simp)
  induction l with
  | nil => simp
  | cons a as ihl =>
    intro acc hacc
    rw [List.foldl_cons,
      insertScored_append a acc (fun b hb => by
        rw [hacc b hb, hl a (List.mem_cons_self ..)]
        exact lt_irrefl S)]
    rw [ihl (fun r hr => hl r (List.mem_cons_of_mem _ hr)) (acc ++ [a]) ?hin]
    · simp
    case hin =>
      intro r hr
      rcases List.mem_append.mp hr with hr | hr
      · exact hacc r hr
      · rw [List.mem_singleton.mp hr]
        exact hl a (List.mem_cons_self ..)

/-- Six image-free, metadata-free chunks whose ids arrive in decreasing
order. -/
def sixChunks : List Chunk :=
  [{ chunk_id := 5 }, { chunk_id := 4 }, { chunk_id := 3 },
   { chunk_id := 2 }, { chunk_id := 1 }, { chunk_id := 0 }]

/-- C2 (counterexample to the claim as stated): searching the six-chunk
index with no `maxResults` option returns six results — not at most five —
and the six equal fused scores are returned in candidate enumeration order
`[5, 4, 3, 2, 1, 0]`, not lower-chunk-id-first. -/
theorem search_default_count_and_tiebreak_cex :
    (search (DB.build sixChunks) "" {} {} 0).map
        (fun o => o.results.map fun r => r.chunk.chunk_id) =
      Except.ok [5, 4, 3, 2, 1, 0] := by
  simp only [search]
  rw [if_neg (by decide)]
  have hcand : searchCandidateIds (DB.build sixChunks) {} = [5, 4, 3, 2, 1, 0] := by
    decide
  rw [hcand]
  have h5 : (DB.build sixChunks).chunks.find? (fun c => c.chunk_id == 5) =
      some { chunk_id := 5 } := by decide
  have h4 : (DB.build sixChunks).chunks.find? (fun c => c.chunk_id == 4) =
      some { chunk_id := 4 } := by decide
  have h3 : (DB.build sixChunks).chunks.find? (fun c => c.chunk_id == 3) =
      some { chunk_id := 3 } := by decide
  have h2 : (DB.build sixChunks).chunks.find? (fun c => c.chunk_id == 2) =
      some { chunk_id := 2 } := by decide
  have h1 : (DB.build sixChunks).chunks.find? (fun c => c.chunk_id == 1) =
      some { chunk_id := 1 } := by decide
  have h0 : (DB.build sixChunks).chunks.find? (fun c => c.chunk_id == 0) =
      some { chunk_id := 0 } := by decide
  simp only [List.filterMap_cons, List.filterMap_nil, h5, h4, h3, h2, h1, h0,
    Option.map_some']
  rw [sortByScoreDesc_const_score _ ((0.5 : ℝ) * metadataWeight) ?hsc]
  case hsc =>
    intro r hr
    simp only [List.mem_cons, List.not_mem_nil, or_false] at hr
    rcases hr with rfl | rfl | rfl | rfl | rfl | rfl <;>
      exact scoreChunk_empty_query_score _ _ (by decide)
  rw [List.take_of_length_le (by decide)]
  simp [Except.map, scoreChunk]
